import Mathlib

/-!
Verification of the air-cargo planning core of `my_air_cargo_problems.py`:
grounded action generation, the T/F state encoding, the transition model
(`actions`, `result`, `goal_test`) and the ignore-preconditions heuristic.
-/

namespace AirCargo

/-- Ground literal of the air-cargo domain: `At(x, l)` or `In(c, p)`.
Mirrors the `expr` literals built throughout `my_air_cargo_problems.py`;
equality is by predicate and both arguments. -/
inductive Literal where
  | At : String → String → Literal
  | In : String → String → Literal
deriving DecidableEq

/-- Sparse fluent state: positive and negative literal lists
(`lp_utils.FluentState`). -/
structure FluentState where
  pos : List Literal
  neg : List Literal
deriving DecidableEq

/-- Modelled from the spec: `encode_state` lives in `lp_utils`, which is not under
`src/`. Per the spec, position `i` of the vector is true iff the literal at
position `i` of the state map is among the sparse state's true-literals. -/
def encode_state (fs : FluentState) (state_map : List Literal) : List Bool :=
  state_map.map (fun l => decide (l ∈ fs.pos))

/-- Modelled from the spec: `decode_state` lives in `lp_utils`, which is not under
`src/`. Per the spec, it partitions the state map by the vector's flags into
true-literals and false-literals, preserving state-map order. -/
def decode_state (v : List Bool) (state_map : List Literal) : FluentState :=
  { pos := (state_map.zip v).filterMap (fun q => if q.2 then some q.1 else none),
    neg := (state_map.zip v).filterMap (fun q => if q.2 then none else some q.1) }

/-- Grounded action name, as built by `get_actions`: `Load(c, p)`,
`Unload(c, p)` (the airport is not part of the name in the code) and
`Fly(p, fr, to)`. -/
inductive ActName where
  | Load : String → String → ActName
  | Unload : String → String → ActName
  | Fly : String → String → String → ActName
deriving DecidableEq

/-- Grounded STRIPS action (`aimacode.planning.Action` as instantiated by
`get_actions`): name plus positive/negative preconditions and
add/delete effects. -/
structure Action where
  name : ActName
  precond_pos : List Literal
  precond_neg : List Literal
  effect_add : List Literal
  effect_rem : List Literal
deriving DecidableEq

/-- The concrete `Load(c, p, a)` action built inside `load_actions`. -/
def load_action (c p ap : String) : Action :=
  { name := ActName.Load c p,
    precond_pos := [Literal.At p ap, Literal.At c ap],
    precond_neg := [Literal.In c p],
    effect_add := [Literal.In c p],
    effect_rem := [Literal.At c ap] }

/-- The concrete `Unload(c, p, a)` action built inside `unload_actions`. -/
def unload_action (c p ap : String) : Action :=
  { name := ActName.Unload c p,
    precond_pos := [Literal.In c p, Literal.At p ap],
    precond_neg := [Literal.At c ap],
    effect_add := [Literal.At c ap],
    effect_rem := [Literal.In c p] }

/-- The concrete `Fly(p, fr, to)` action built inside `fly_actions`. -/
def fly_action (p fr dst : String) : Action :=
  { name := ActName.Fly p fr dst,
    precond_pos := [Literal.At p fr],
    precond_neg := [],
    effect_add := [Literal.At p dst],
    effect_rem := [Literal.At p fr] }

/-- `load_actions` of `get_actions`: iterates airports, then planes,
then cargos. -/
def load_actions (cargos planes airports : List String) : List Action :=
  airports.flatMap (fun ap => planes.flatMap (fun p => cargos.map (fun c => load_action c p ap)))

/-- `unload_actions` of `get_actions`: iterates airports, then planes,
then cargos. -/
def unload_actions (cargos planes airports : List String) : List Action :=
  airports.flatMap (fun ap => planes.flatMap (fun p => cargos.map (fun c => unload_action c p ap)))

/-- `fly_actions` of `get_actions`: iterates from-airports, then to-airports
(skipping `fr = to`), then planes. -/
def fly_actions (planes airports : List String) : List Action :=
  airports.flatMap (fun fr => airports.flatMap (fun dst =>
    if fr ≠ dst then planes.map (fun p => fly_action p fr dst) else []))

/-- `AirCargoProblem.get_actions`: all Load actions, then all Unload actions,
then all Fly actions. -/
def get_actions (cargos planes airports : List String) : List Action :=
  load_actions cargos planes airports ++ unload_actions cargos planes airports ++
    fly_actions planes airports

/-- The fields of `AirCargoProblem` after `__init__` has run. -/
structure AirCargoProblem where
  cargos : List String
  planes : List String
  airports : List String
  state_map : List Literal
  initial_state_TF : List Bool
  goal : List Literal
  actions_list : List Action
deriving DecidableEq

/-- `AirCargoProblem.__init__`: `state_map` is the initial positive literals
followed by the initial negative literals, the initial state is encoded over
that map, and the grounded action list is computed once. -/
def mkAirCargoProblem (cargos planes airports : List String) (initial : FluentState)
    (goal : List Literal) : AirCargoProblem :=
  { cargos := cargos,
    planes := planes,
    airports := airports,
    state_map := initial.pos ++ initial.neg,
    initial_state_TF := encode_state initial (initial.pos ++ initial.neg),
    goal := goal,
    actions_list := get_actions cargos planes airports }

/-- `AirCargoProblem.actions`: decode the state and keep exactly the grounded
actions whose negative preconditions all lie in the decoded false-literals and
whose positive preconditions all lie in the decoded true-literals. -/
def AirCargoProblem.actions (pr : AirCargoProblem) (state : List Bool) : List Action :=
  let fluents := decode_state state pr.state_map
  pr.actions_list.filter (fun a =>
    a.precond_neg.all (fun l => decide (l ∈ fluents.neg)) &&
    a.precond_pos.all (fun l => decide (l ∈ fluents.pos)))

/-- `AirCargoProblem.result`: decode, drop delete-effects from the positive
list and append add-effects, drop add-effects from the negative list and
append delete-effects, then re-encode over the state map. -/
def AirCargoProblem.result (pr : AirCargoProblem) (state : List Bool) (a : Action) :
    List Bool :=
  let fluents := decode_state state pr.state_map
  let pos_list := fluents.pos.filter (fun x => decide (x ∉ a.effect_rem)) ++ a.effect_add
  let neg_list := fluents.neg.filter (fun x => decide (x ∉ a.effect_add)) ++ a.effect_rem
  encode_state (FluentState.mk pos_list neg_list) pr.state_map

/-- `AirCargoProblem.goal_test`. Modelled from the spec for the knowledge-base
part: `aimacode.logic.PropKB` is not under `src/`; per the spec, telling the
conjunction of the decoded state's positive fluents leaves exactly those
literals as clauses, so the test succeeds iff every goal clause is among the
decoded true-literals. -/
def AirCargoProblem.goal_test (pr : AirCargoProblem) (state : List Bool) : Bool :=
  pr.goal.all (fun clause => decide (clause ∈ (decode_state state pr.state_map).pos))

/-- `AirCargoProblem.h_ignore_preconditions`: count the goal literals that lie
in the decoded state's false-literals. -/
def AirCargoProblem.h_ignore_preconditions (pr : AirCargoProblem) (state : List Bool) :
    Nat :=
  pr.goal.countP (fun g => decide (g ∈ (decode_state state pr.state_map).neg))

/-- States reachable from the problem's initial encoded state by repeatedly
applying `result` with an action drawn from `actions`. -/
inductive Reachable (pr : AirCargoProblem) : List Bool → Prop where
  | init : Reachable pr pr.initial_state_TF
  | step : ∀ s a, Reachable pr s → a ∈ pr.actions s → Reachable pr (pr.result s a)

/-- The 2-cargo/2-plane/2-airport instance `air_cargo_p1`. -/
def air_cargo_p1 : AirCargoProblem :=
  mkAirCargoProblem ["C1", "C2"] ["P1", "P2"] ["JFK", "SFO"]
    { pos := [Literal.At "C1" "SFO", Literal.At "C2" "JFK",
              Literal.At "P1" "SFO", Literal.At "P2" "JFK"],
      neg := [Literal.At "C2" "SFO", Literal.In "C2" "P1", Literal.In "C2" "P2",
              Literal.At "C1" "JFK", Literal.In "C1" "P1", Literal.In "C1" "P2",
              Literal.At "P1" "JFK", Literal.At "P2" "SFO"] }
    [Literal.At "C1" "JFK", Literal.At "C2" "SFO"]

/-! ### Basic properties of the codec -/

/-- Unfolding `decode_state` over a cons cell with a true flag. -/
theorem decode_state_cons_true (a : Literal) (v : List Bool) (m : List Literal) :
    decode_state (true :: v) (a :: m) =
      FluentState.mk (a :: (decode_state v m).pos) (decode_state v m).neg := by
  simp [decode_state]

/-- Unfolding `decode_state` over a cons cell with a false flag. -/
theorem decode_state_cons_false (a : Literal) (v : List Bool) (m : List Literal) :
    decode_state (false :: v) (a :: m) =
      FluentState.mk (decode_state v m).pos (a :: (decode_state v m).neg) := by
  simp [decode_state]

/-- Decoded true-literals come from the state map. -/
theorem mem_decode_pos (v : List Bool) (m : List Literal) (l : Literal)
    (h : l ∈ (decode_state v m).pos) : l ∈ m := by
  induction m generalizing v with
  | nil => simp [decode_state] at h
  | cons a m ih =>
    cases v with
    | nil => simp [decode_state] at h
    | cons b v =>
      cases b with
      | true =>
        rw [decode_state_cons_true] at h
        rcases List.mem_cons.1 h with h | h
        · exact h ▸ List.mem_cons_self a m
        · exact List.mem_cons_of_mem a (ih v h)
      | false =>
        rw [decode_state_cons_false] at h
        exact List.mem_cons_of_mem a (ih v h)

/-- Decoded false-literals come from the state map. -/
theorem mem_decode_neg (v : List Bool) (m : List Literal) (l : Literal)
    (h : l ∈ (decode_state v m).neg) : l ∈ m := by
  induction m generalizing v with
  | nil => simp [decode_state] at h
  | cons a m ih =>
    cases v with
    | nil => simp [decode_state] at h
    | cons b v =>
      cases b with
      | true =>
        rw [decode_state_cons_true] at h
        exact List.mem_cons_of_mem a (ih v h)
      | false =>
        rw [decode_state_cons_false] at h
        rcases List.mem_cons.1 h with h | h
        · exact h ▸ List.mem_cons_self a m
        · exact List.mem_cons_of_mem a (ih v h)

/-- Over a duplicate-free state map and a vector of matching length, the
decoded false-literals are exactly the mapped literals that are not decoded
true. -/
theorem decode_neg_iff (v : List Bool) (m : List Literal) (hnd : m.Nodup)
    (hlen : v.length = m.length) (l : Literal) :
    l ∈ (decode_state v m).neg ↔ l ∈ m ∧ l ∉ (decode_state v m).pos := by
  induction m generalizing v with
  | nil =>
    cases v with
    | nil => simp [decode_state]
    | cons b v => simp at hlen
  | cons a m ih =>
    cases v with
    | nil => simp at hlen
    | cons b v =>
      have hnd2 := List.nodup_cons.1 hnd
      have hlen2 : v.length = m.length := by simpa using hlen
      cases b with
      | true =>
        rw [decode_state_cons_true]
        simp only []
        rw [ih v hnd2.2 hlen2]
        constructor
        · rintro ⟨hm, hnp⟩
          refine ⟨List.mem_cons_of_mem a hm, ?_⟩
          intro hc
          rcases List.mem_cons.1 hc with rfl | hc
          · exact hnd2.1 hm
          · exact hnp hc
        · rintro ⟨hm, hnp⟩
          rcases List.mem_cons.1 hm with rfl | hm
          · exact absurd (List.mem_cons_self l _) hnp
          · exact ⟨hm, fun hc => hnp (List.mem_cons_of_mem a hc)⟩
      | false =>
        rw [decode_state_cons_false]
        constructor
        · intro h
          rcases List.mem_cons.1 h with rfl | h
          · exact ⟨List.mem_cons_self l _, fun hc => hnd2.1 (mem_decode_pos v m l hc)⟩
          · rcases (ih v hnd2.2 hlen2).1 h with ⟨hm, hnp⟩
            exact ⟨List.mem_cons_of_mem a hm, hnp⟩
        · rintro ⟨hm, hnp⟩
          rcases List.mem_cons.1 hm with rfl | hm
          · exact List.mem_cons_self l _
          · exact List.mem_cons_of_mem a ((ih v hnd2.2 hlen2).2 ⟨hm, hnp⟩)

/-- Decoding the encoding of a sparse state filters the map by membership in
the sparse true-literals. -/
theorem decode_encode (fs : FluentState) (m : List Literal) :
    decode_state (encode_state fs m) m =
      FluentState.mk (m.filter (fun l => decide (l ∈ fs.pos)))
        (m.filter (fun l => !decide (l ∈ fs.pos))) := by
  induction m with
  | nil => rfl
  | cons a m ih =>
    rw [encode_state, List.map_cons, ← encode_state]
    cases h : decide (a ∈ fs.pos) <;>
      simp [decode_state_cons_true, decode_state_cons_false, ih, List.filter_cons, h]

/-- Round trip of the codec: re-encoding the decoded true-literals of a vector
of matching length over a duplicate-free map returns the vector. -/
theorem encode_decode (v : List Bool) (m : List Literal) (hnd : m.Nodup)
    (hlen : v.length = m.length) :
    m.map (fun l => decide (l ∈ (decode_state v m).pos)) = v := by
  induction m generalizing v with
  | nil =>
    cases v with
    | nil => rfl
    | cons b v => simp at hlen
  | cons a m ih =>
    cases v with
    | nil => simp at hlen
    | cons b v =>
      have hnd2 := List.nodup_cons.1 hnd
      have hlen2 : v.length = m.length := by simpa using hlen
      cases b with
      | true =>
        rw [decode_state_cons_true]
        simp only [List.map_cons]
        have hhead : decide (a ∈ a :: (decode_state v m).pos) = true := by
          simp
        rw [hhead]
        have htail : m.map (fun l => decide (l ∈ a :: (decode_state v m).pos)) =
            m.map (fun l => decide (l ∈ (decode_state v m).pos)) := by
          refine List.map_congr_left (fun l hl => ?_)
          have hla : l ≠ a := fun hc => hnd2.1 (hc ▸ hl)
          rw [decide_eq_decide]
          simp [List.mem_cons, hla]
        rw [htail, ih v hnd2.2 hlen2]
      | false =>
        rw [decode_state_cons_false]
        simp only [List.map_cons]
        have hhead : decide (a ∈ (decode_state v m).pos) = false := by
          rw [decide_eq_false_iff_not]
          exact fun hc => hnd2.1 (mem_decode_pos v m a hc)
        rw [hhead, ih v hnd2.2 hlen2]

/-- Encoding depends only on which map literals are among the true-literals. -/
theorem encode_state_congr (fs gs : FluentState) (m : List Literal)
    (h : ∀ l ∈ m, l ∈ fs.pos ↔ l ∈ gs.pos) :
    encode_state fs m = encode_state gs m :=
  List.map_congr_left (fun l hl => decide_eq_decide.2 (h l hl))

/-- Membership in the positive list built by `result`. -/
theorem mem_result_pos_list (fl : FluentState) (a : Action) (l : Literal) :
    l ∈ fl.pos.filter (fun x => decide (x ∉ a.effect_rem)) ++ a.effect_add ↔
      (l ∈ fl.pos ∧ l ∉ a.effect_rem) ∨ l ∈ a.effect_add := by
  simp [List.mem_append, List.mem_filter]

/-! ### Reachability and counting helpers -/

/-- Every state reachable in a problem built by the constructor is the encoding
of some sparse state over the problem's state map: the initial state is encoded
at construction, and `result` always returns an encoding. -/
theorem reachable_is_encoding (cargos planes airports : List String)
    (initial : FluentState) (goal : List Literal) (s : List Bool)
    (h : Reachable (mkAirCargoProblem cargos planes airports initial goal) s) :
    ∃ fs : FluentState,
      s = encode_state fs (mkAirCargoProblem cargos planes airports initial goal).state_map := by
  induction h with
  | init => exact ⟨initial, rfl⟩
  | step s a hs ha ih =>
    exact ⟨FluentState.mk
      ((decode_state s (mkAirCargoProblem cargos planes airports initial goal).state_map).pos.filter
          (fun x => decide (x ∉ a.effect_rem)) ++ a.effect_add)
      ((decode_state s (mkAirCargoProblem cargos planes airports initial goal).state_map).neg.filter
          (fun x => decide (x ∉ a.effect_add)) ++ a.effect_rem), rfl⟩

/-- Splitting a `countP` by a second Boolean predicate. -/
theorem countP_and_not_add {α : Type} (l : List α) (p q : α → Bool) :
    l.countP (fun x => p x && !(q x)) + l.countP (fun x => p x && q x) = l.countP p := by
  induction l with
  | nil => rfl
  | cons a l ih =>
    cases hp : p a <;> cases hq : q a <;>
      simp [List.countP_cons, hp, hq] <;> omega

/-- Length of a `flatMap` whose pieces all have the same length. -/
theorem length_flatMap_const {α β : Type} (l : List α) (f : α → List β) (k : Nat)
    (h : ∀ x ∈ l, (f x).length = k) : (l.flatMap f).length = l.length * k := by
  induction l with
  | nil => simp
  | cons a l ih =>
    rw [List.flatMap_cons, List.length_append, h a (List.mem_cons_self a l),
      ih (fun x hx => h x (List.mem_cons_of_mem a hx)), List.length_cons,
      Nat.succ_mul, Nat.add_comm]

/-- Length of the inner to-airport loop of `fly_actions`. -/
theorem fly_inner_length (planes : List String) (fr : String) (l : List String) :
    (l.flatMap (fun dst =>
        if fr ≠ dst then planes.map (fun p => fly_action p fr dst) else [])).length =
      l.countP (fun dst => decide (fr ≠ dst)) * planes.length := by
  induction l with
  | nil => simp
  | cons d l ih =>
    rw [List.flatMap_cons, List.length_append, List.countP_cons, ih]
    by_cases h : fr ≠ d
    · have hd : decide (fr ≠ d) = true := by simp [h]
      rw [if_pos h, hd, List.length_map, if_pos rfl, Nat.add_mul, Nat.one_mul,
        Nat.add_comm]
    · have hd : decide (fr ≠ d) = false := by simp [h]
      rw [if_neg h, hd, List.length_nil, Nat.zero_add]
      simp

/-- In a duplicate-free list, every element differs from a given member except
once. -/
theorem countP_ne_of_nodup (l : List String) (fr : String) (hnd : l.Nodup)
    (hm : fr ∈ l) : l.countP (fun dst => decide (fr ≠ dst)) = l.length - 1 := by
  induction l with
  | nil => simp at hm
  | cons d l ih =>
    have hnd2 := List.nodup_cons.1 hnd
    rw [List.countP_cons]
    by_cases h : fr = d
    · subst h
      have hall : l.countP (fun dst => decide (fr ≠ dst)) = l.length := by
        refine List.countP_eq_length.2 (fun x hx => ?_)
        refine decide_eq_true (fun hc : fr = x => ?_)
        rw [hc] at hnd2
        exact hnd2.1 hx
      have hd : decide (fr ≠ fr) = false := by simp
      rw [hall, hd]
      simp
    · have hm2 : fr ∈ l := by
        rcases List.mem_cons.1 hm with hc | hc
        · exact absurd hc h
        · exact hc
      have hlen : 1 ≤ l.length := List.length_pos.2 (List.ne_nil_of_mem hm2)
      have hd : decide (fr ≠ d) = true := by simp [h]
      rw [ih hnd2.2 hm2, hd, if_pos rfl, List.length_cons]
      omega

/-- The direct subset check the spec says `goal_test` reduces to: every goal
literal is among the decoded state's true-literals. -/
def goal_subset_check (pr : AirCargoProblem) (state : List Bool) : Prop :=
  pr.goal.toFinset ⊆ (decode_state state pr.state_map).pos.toFinset

/-! ### Claims -/

/-- C2: `actions(s)` returns exactly the actions of `actions_list` whose
negative preconditions are a subset of the decoded false-literal set and whose
positive preconditions are a subset of the decoded true-literal set, membership
taken over sets. -/
theorem actions_mem_iff (pr : AirCargoProblem) (s : List Bool) (a : Action) :
    a ∈ pr.actions s ↔
      a ∈ pr.actions_list ∧
        a.precond_neg.toFinset ⊆ (decode_state s pr.state_map).neg.toFinset ∧
        a.precond_pos.toFinset ⊆ (decode_state s pr.state_map).pos.toFinset := by
  simp [AirCargoProblem.actions, List.mem_filter, List.all_eq_true, Finset.subset_iff,
    List.mem_toFinset]

/-- C5: executing the six-step plan Load(C1,P1,SFO), Fly(P1,SFO,JFK),
Unload(C1,P1,JFK), Load(C2,P2,JFK), Fly(P2,JFK,SFO), Unload(C2,P2,SFO) from the
initial state of `air_cargo_p1` reaches a state satisfying `goal_test`. -/
theorem plan_p1_reaches_goal :
    air_cargo_p1.goal_test
      (air_cargo_p1.result
        (air_cargo_p1.result
          (air_cargo_p1.result
            (air_cargo_p1.result
              (air_cargo_p1.result
                (air_cargo_p1.result air_cargo_p1.initial_state_TF
                  (load_action "C1" "P1" "SFO"))
                (fly_action "P1" "SFO" "JFK"))
              (unload_action "C1" "P1" "JFK"))
            (load_action "C2" "P2" "JFK"))
          (fly_action "P2" "JFK" "SFO"))
        (unload_action "C2" "P2" "SFO")) = true := by
  decide

/-- C6 counterexample: contrary to the claim, `Fly(P1, JFK, SFO)` is not
applicable in the initial state of `air_cargo_p1` — its positive precondition
`At(P1, JFK)` is false there, since P1 starts at SFO. -/
theorem fly_p1_jfk_sfo_not_initially_applicable :
    fly_action "P1" "JFK" "SFO" ∉ air_cargo_p1.actions air_cargo_p1.initial_state_TF := by
  decide

/-- C6 amended: in `air_cargo_p1`, the applicable actions in the initial state
are exactly Load(C2,P2,JFK), Load(C1,P1,SFO), Fly(P2,JFK,SFO) and
Fly(P1,SFO,JFK) (in the order `actions_list` enumerates them); every other
Load/Unload/Fly — including Fly(P1,JFK,SFO) and Fly(P2,SFO,JFK), whose plane is
not at the from-airport — is excluded. -/
theorem actions_initial_p1 :
    air_cargo_p1.actions air_cargo_p1.initial_state_TF =
      [load_action "C2" "P2" "JFK", load_action "C1" "P1" "SFO",
       fly_action "P2" "JFK" "SFO", fly_action "P1" "SFO" "JFK"] := by
  decide

/-- C7: the knowledge-base based `goal_test` is equivalent to the direct subset
check of the goal literals against the decoded true-literal set. -/
theorem goal_test_iff_subset (pr : AirCargoProblem) (s : List Bool) :
    pr.goal_test s = true ↔ goal_subset_check pr s := by
  simp [AirCargoProblem.goal_test, goal_subset_check, List.all_eq_true,
    Finset.subset_iff, List.mem_toFinset]

/-- C9: `result` does not detect an effect literal outside `state_map`; it
silently drops it. Applying an action whose add-effect `In(C3, P1)` is not in
the vocabulary of `air_cargo_p1` returns the unchanged encoded state — a normal
value, not an error — and the added literal is absent from the decoded result. -/
theorem result_silently_drops_unmapped_effect :
    Literal.In "C3" "P1" ∉ air_cargo_p1.state_map ∧
    air_cargo_p1.result air_cargo_p1.initial_state_TF
        (Action.mk (ActName.Load "C3" "P1") [] [] [Literal.In "C3" "P1"] []) =
      air_cargo_p1.initial_state_TF ∧
    Literal.In "C3" "P1" ∉
      (decode_state
        (air_cargo_p1.result air_cargo_p1.initial_state_TF
          (Action.mk (ActName.Load "C3" "P1") [] [] [Literal.In "C3" "P1"] []))
        air_cargo_p1.state_map).pos := by
  refine ⟨by decide, by decide, by decide⟩

/-- C4: with pairwise-distinct airport identifiers, `get_actions` grounds
exactly A·P·C·2 Load/Unload actions plus A·(A−1)·P Fly actions. -/
theorem get_actions_count (cargos planes airports : List String)
    (hnd : airports.Nodup) :
    (get_actions cargos planes airports).length =
      airports.length * planes.length * cargos.length * 2 +
        airports.length * (airports.length - 1) * planes.length := by
  have hload : (load_actions cargos planes airports).length =
      airports.length * (planes.length * cargos.length) :=
    length_flatMap_const _ _ _ (fun ap hap =>
      length_flatMap_const _ _ _ (fun p hp => List.length_map _ _))
  have hunload : (unload_actions cargos planes airports).length =
      airports.length * (planes.length * cargos.length) :=
    length_flatMap_const _ _ _ (fun ap hap =>
      length_flatMap_const _ _ _ (fun p hp => List.length_map _ _))
  have hfly : (fly_actions planes airports).length =
      airports.length * ((airports.length - 1) * planes.length) :=
    length_flatMap_const _ _ _ (fun fr hfr => by
      rw [fly_inner_length, countP_ne_of_nodup airports fr hnd hfr])
  rw [get_actions, List.length_append, List.length_append, hload, hunload, hfly]
  ring

/-- C4 witness: for the 2-airport, 2-plane, 2-cargo object sets of
`air_cargo_p1` the total is 2·2·2·2 + 2·1·2 = 20 grounded actions. -/
theorem get_actions_count_witness :
    (get_actions ["C1", "C2"] ["P1", "P2"] ["JFK", "SFO"]).length = 20 := by
  have h := get_actions_count ["C1", "C2"] ["P1", "P2"] ["JFK", "SFO"] (by decide)
  simpa using h

/-- C1: over the problem's state map (duplicate-free, with the encoded state of
matching length and the action's effects within the vocabulary and mutually
disjoint, as grounded actions' are), the decoded result has true-literal set
(old true ∖ delete-effects) ∪ add-effects and false-literal set
(old false ∖ add-effects) ∪ delete-effects. -/
theorem result_effect_sets (pr : AirCargoProblem) (s : List Bool) (a : Action)
    (hnd : pr.state_map.Nodup) (hlen : s.length = pr.state_map.length)
    (hadd : ∀ l ∈ a.effect_add, l ∈ pr.state_map)
    (hrem : ∀ l ∈ a.effect_rem, l ∈ pr.state_map)
    (hdisj : ∀ l ∈ a.effect_add, l ∉ a.effect_rem) :
    (decode_state (pr.result s a) pr.state_map).pos.toFinset =
      ((decode_state s pr.state_map).pos.toFinset \ a.effect_rem.toFinset) ∪
        a.effect_add.toFinset ∧
    (decode_state (pr.result s a) pr.state_map).neg.toFinset =
      ((decode_state s pr.state_map).neg.toFinset \ a.effect_add.toFinset) ∪
        a.effect_rem.toFinset := by
  have hres : pr.result s a = encode_state (FluentState.mk
      ((decode_state s pr.state_map).pos.filter (fun x => decide (x ∉ a.effect_rem)) ++
        a.effect_add)
      ((decode_state s pr.state_map).neg.filter (fun x => decide (x ∉ a.effect_add)) ++
        a.effect_rem)) pr.state_map := rfl
  constructor
  · ext l
    rw [hres, decode_encode]
    have f1 := mem_decode_pos s pr.state_map l
    have f2 := hadd l
    simp only [List.mem_toFinset, Finset.mem_union, Finset.mem_sdiff, List.mem_filter,
      List.mem_append, decide_eq_true_iff]
    tauto
  · ext l
    rw [hres, decode_encode]
    have f1 := hrem l
    have f2 := hdisj l
    have f3 := decode_neg_iff s pr.state_map hnd hlen l
    simp only [List.mem_toFinset, Finset.mem_union, Finset.mem_sdiff, List.mem_filter,
      List.mem_append, decide_eq_true_iff, Bool.not_eq_true', decide_eq_false_iff_not]
    rw [f3]
    tauto

/-- C1 witness: the effect-set equations instantiated at `air_cargo_p1`, its
initial state and the grounded action Load(C1, P1, SFO). -/
theorem result_effect_sets_witness :
    (decode_state (air_cargo_p1.result air_cargo_p1.initial_state_TF
        (load_action "C1" "P1" "SFO")) air_cargo_p1.state_map).pos.toFinset =
      ((decode_state air_cargo_p1.initial_state_TF air_cargo_p1.state_map).pos.toFinset \
          (load_action "C1" "P1" "SFO").effect_rem.toFinset) ∪
        (load_action "C1" "P1" "SFO").effect_add.toFinset ∧
    (decode_state (air_cargo_p1.result air_cargo_p1.initial_state_TF
        (load_action "C1" "P1" "SFO")) air_cargo_p1.state_map).neg.toFinset =
      ((decode_state air_cargo_p1.initial_state_TF air_cargo_p1.state_map).neg.toFinset \
          (load_action "C1" "P1" "SFO").effect_add.toFinset) ∪
        (load_action "C1" "P1" "SFO").effect_rem.toFinset :=
  result_effect_sets air_cargo_p1 air_cargo_p1.initial_state_TF
    (load_action "C1" "P1" "SFO") (by decide) (by decide) (by decide) (by decide)
    (by decide)

/-- C3: every state reachable from the constructed initial state by `result`
with actions drawn from `actions` decodes to true- and false-literal sets that
are disjoint and whose union is exactly the state map's vocabulary. -/
theorem reachable_states_partition (cargos planes airports : List String)
    (initial : FluentState) (goal : List Literal) (s : List Bool)
    (hreach : Reachable (mkAirCargoProblem cargos planes airports initial goal) s) :
    (decode_state s
          (mkAirCargoProblem cargos planes airports initial goal).state_map).pos.toFinset ∩
        (decode_state s
          (mkAirCargoProblem cargos planes airports initial goal).state_map).neg.toFinset =
        ∅ ∧
      (decode_state s
          (mkAirCargoProblem cargos planes airports initial goal).state_map).pos.toFinset ∪
        (decode_state s
          (mkAirCargoProblem cargos planes airports initial goal).state_map).neg.toFinset =
      (mkAirCargoProblem cargos planes airports initial goal).state_map.toFinset := by
  obtain ⟨fs, rfl⟩ := reachable_is_encoding _ _ _ _ _ _ hreach
  rw [decode_encode]
  constructor
  · ext l
    simp only [Finset.mem_inter, List.mem_toFinset, List.mem_filter,
      Finset.not_mem_empty, iff_false, Bool.not_eq_true', decide_eq_true_iff,
      decide_eq_false_iff_not]
    tauto
  · ext l
    simp only [Finset.mem_union, List.mem_toFinset, List.mem_filter,
      Bool.not_eq_true', decide_eq_true_iff, decide_eq_false_iff_not]
    tauto

/-- C3 witness: the partition equations instantiated at the initial state of
`air_cargo_p1`, reachable in zero steps. -/
theorem reachable_states_partition_witness :
    (decode_state air_cargo_p1.initial_state_TF air_cargo_p1.state_map).pos.toFinset ∩
        (decode_state air_cargo_p1.initial_state_TF air_cargo_p1.state_map).neg.toFinset =
        ∅ ∧
      (decode_state air_cargo_p1.initial_state_TF air_cargo_p1.state_map).pos.toFinset ∪
        (decode_state air_cargo_p1.initial_state_TF air_cargo_p1.state_map).neg.toFinset =
      air_cargo_p1.state_map.toFinset :=
  reachable_states_partition ["C1", "C2"] ["P1", "P2"] ["JFK", "SFO"]
    (FluentState.mk
      [Literal.At "C1" "SFO", Literal.At "C2" "JFK",
       Literal.At "P1" "SFO", Literal.At "P2" "JFK"]
      [Literal.At "C2" "SFO", Literal.In "C2" "P1", Literal.In "C2" "P2",
       Literal.At "C1" "JFK", Literal.In "C1" "P1", Literal.In "C1" "P2",
       Literal.At "P1" "JFK", Literal.At "P2" "SFO"])
    [Literal.At "C1" "JFK", Literal.At "C2" "SFO"]
    air_cargo_p1.initial_state_TF Reachable.init

/-- Membership characterization for decoding an encoded sparse state. -/
theorem mem_decode_encode_pos (fs : FluentState) (m : List Literal) (l : Literal) :
    l ∈ (decode_state (encode_state fs m) m).pos ↔ l ∈ m ∧ l ∈ fs.pos := by
  rw [decode_encode]
  simp [List.mem_filter]

/-- Membership characterization for decoding an encoded sparse state. -/
theorem mem_decode_encode_neg (fs : FluentState) (m : List Literal) (l : Literal) :
    l ∈ (decode_state (encode_state fs m) m).neg ↔ l ∈ m ∧ l ∉ fs.pos := by
  rw [decode_encode]
  simp [List.mem_filter]

/-- Core counting fact behind the heuristic-decrease claim: applying an action
whose delete-effects avoid every goal literal turns exactly the currently-false
goal literals among its add-effects true, so the unmet-goal count drops by
their number. -/
theorem countP_goal_after_result (m goal : List Literal) (fs : FluentState) (a : Action)
    (hrem : ∀ l ∈ a.effect_rem, l ∉ goal)
    (hone : goal.countP (fun g =>
        decide (g ∈ (decode_state (encode_state fs m) m).neg) &&
          decide (g ∈ a.effect_add)) = 1) :
    goal.countP (fun g => decide (g ∈ (decode_state (encode_state (FluentState.mk
        ((decode_state (encode_state fs m) m).pos.filter
            (fun x => decide (x ∉ a.effect_rem)) ++ a.effect_add)
        ((decode_state (encode_state fs m) m).neg.filter
            (fun x => decide (x ∉ a.effect_add)) ++ a.effect_rem)) m) m).neg)) + 1 =
      goal.countP (fun g => decide (g ∈ (decode_state (encode_state fs m) m).neg)) := by
  have hcong : ∀ g ∈ goal,
      (decide (g ∈ (decode_state (encode_state (FluentState.mk
          ((decode_state (encode_state fs m) m).pos.filter
              (fun x => decide (x ∉ a.effect_rem)) ++ a.effect_add)
          ((decode_state (encode_state fs m) m).neg.filter
              (fun x => decide (x ∉ a.effect_add)) ++ a.effect_rem)) m) m).neg) = true) ↔
        ((decide (g ∈ (decode_state (encode_state fs m) m).neg) &&
          !decide (g ∈ a.effect_add)) = true) := by
    intro g hg
    have hgrem : g ∉ a.effect_rem := fun hc => hrem g hc hg
    simp only [Bool.and_eq_true, Bool.not_eq_true', decide_eq_true_iff,
      decide_eq_false_iff_not]
    rw [mem_decode_encode_neg, mem_decode_encode_neg]
    simp only [List.mem_append, List.mem_filter, decide_eq_true_iff]
    rw [not_or]
    constructor
    · rintro ⟨hm, hnp, hna⟩
      refine ⟨⟨hm, fun hfp => hnp ⟨?_, hgrem⟩⟩, hna⟩
      rw [mem_decode_encode_pos]
      exact ⟨hm, hfp⟩
    · rintro ⟨⟨hm, hnp⟩, hna⟩
      refine ⟨hm, ?_, hna⟩
      rintro ⟨hop, -⟩
      rw [mem_decode_encode_pos] at hop
      exact hnp hop.2
  rw [List.countP_congr hcong, ← hone]
  exact countP_and_not_add goal _ _

/-- C8 counterexample to "h_ignore_preconditions never increases": in
`air_cargo_p1`, after delivering C1 to JFK (a reachable state), re-loading it
with Load(C1, P1, JFK) is applicable and raises the heuristic from 1 to 2,
because the action deletes the satisfied goal literal At(C1, JFK). -/
theorem h_ignore_preconditions_can_increase :
    load_action "C1" "P1" "JFK" ∈ air_cargo_p1.actions
        (air_cargo_p1.result (air_cargo_p1.result (air_cargo_p1.result
          air_cargo_p1.initial_state_TF (load_action "C1" "P1" "SFO"))
          (fly_action "P1" "SFO" "JFK")) (unload_action "C1" "P1" "JFK")) ∧
    Reachable air_cargo_p1
      (air_cargo_p1.result (air_cargo_p1.result (air_cargo_p1.result
        air_cargo_p1.initial_state_TF (load_action "C1" "P1" "SFO"))
        (fly_action "P1" "SFO" "JFK")) (unload_action "C1" "P1" "JFK")) ∧
    air_cargo_p1.h_ignore_preconditions
        (air_cargo_p1.result
          (air_cargo_p1.result (air_cargo_p1.result (air_cargo_p1.result
            air_cargo_p1.initial_state_TF (load_action "C1" "P1" "SFO"))
            (fly_action "P1" "SFO" "JFK")) (unload_action "C1" "P1" "JFK"))
          (load_action "C1" "P1" "JFK")) =
      air_cargo_p1.h_ignore_preconditions
        (air_cargo_p1.result (air_cargo_p1.result (air_cargo_p1.result
          air_cargo_p1.initial_state_TF (load_action "C1" "P1" "SFO"))
          (fly_action "P1" "SFO" "JFK")) (unload_action "C1" "P1" "JFK")) + 1 := by
  refine ⟨by decide, ?_, by decide⟩
  exact Reachable.step _ _ (Reachable.step _ _ (Reachable.step _ _ Reachable.init
    (by decide)) (by decide)) (by decide)

/-- C8 amended: for a reachable state of a constructed problem and an
applicable action whose delete-effects contain no goal literal and that makes
exactly one previously-false goal literal true, `h_ignore_preconditions`
decreases by exactly 1. (Without the delete-effect proviso the heuristic can
increase, as the counterexample shows.) -/
theorem h_ignore_preconditions_decreases (pr : AirCargoProblem)
    (cargos planes airports : List String) (initial : FluentState)
    (goal : List Literal)
    (hpr : pr = mkAirCargoProblem cargos planes airports initial goal)
    (s : List Bool) (a : Action) (hreach : Reachable pr s) (ha : a ∈ pr.actions s)
    (hrem : ∀ l ∈ a.effect_rem, l ∉ pr.goal)
    (hone : pr.goal.countP (fun g =>
        decide (g ∈ (decode_state s pr.state_map).neg) &&
          decide (g ∈ a.effect_add)) = 1) :
    pr.h_ignore_preconditions (pr.result s a) + 1 = pr.h_ignore_preconditions s := by
  subst hpr
  obtain ⟨fs, rfl⟩ := reachable_is_encoding _ _ _ _ _ _ hreach
  exact countP_goal_after_result _ _ fs a hrem hone

/-- C8 witness: in `air_cargo_p1`, unloading C1 at JFK after Load(C1,P1,SFO)
and Fly(P1,SFO,JFK) makes the goal literal At(C1, JFK) true and drops the
heuristic from 2 to 1. -/
theorem h_ignore_preconditions_decreases_witness :
    air_cargo_p1.h_ignore_preconditions
        (air_cargo_p1.result
          (air_cargo_p1.result
            (air_cargo_p1.result air_cargo_p1.initial_state_TF
              (load_action "C1" "P1" "SFO"))
            (fly_action "P1" "SFO" "JFK"))
          (unload_action "C1" "P1" "JFK")) + 1 =
      air_cargo_p1.h_ignore_preconditions
        (air_cargo_p1.result
          (air_cargo_p1.result air_cargo_p1.initial_state_TF
            (load_action "C1" "P1" "SFO"))
          (fly_action "P1" "SFO" "JFK")) :=
  h_ignore_preconditions_decreases air_cargo_p1 ["C1", "C2"] ["P1", "P2"]
    ["JFK", "SFO"]
    (FluentState.mk
      [Literal.At "C1" "SFO", Literal.At "C2" "JFK",
       Literal.At "P1" "SFO", Literal.At "P2" "JFK"]
      [Literal.At "C2" "SFO", Literal.In "C2" "P1", Literal.In "C2" "P2",
       Literal.At "C1" "JFK", Literal.In "C1" "P1", Literal.In "C1" "P2",
       Literal.At "P1" "JFK", Literal.At "P2" "SFO"])
    [Literal.At "C1" "JFK", Literal.At "C2" "SFO"] rfl
    (air_cargo_p1.result
      (air_cargo_p1.result air_cargo_p1.initial_state_TF
        (load_action "C1" "P1" "SFO"))
      (fly_action "P1" "SFO" "JFK"))
    (unload_action "C1" "P1" "JFK")
    (Reachable.step _ _ (Reachable.step _ _ Reachable.init (by decide)) (by decide))
    (by decide) (by decide) (by decide)

/-- Membership in the decoded true-literals of a `result` state. -/
theorem mem_decode_result_pos (pr : AirCargoProblem) (s : List Bool) (a : Action)
    (l : Literal) :
    l ∈ (decode_state (pr.result s a) pr.state_map).pos ↔
      l ∈ pr.state_map ∧
        ((l ∈ (decode_state s pr.state_map).pos ∧ l ∉ a.effect_rem) ∨
          l ∈ a.effect_add) := by
  rw [show pr.result s a = encode_state (FluentState.mk
      ((decode_state s pr.state_map).pos.filter (fun x => decide (x ∉ a.effect_rem)) ++
        a.effect_add)
      ((decode_state s pr.state_map).neg.filter (fun x => decide (x ∉ a.effect_add)) ++
        a.effect_rem)) pr.state_map from rfl, mem_decode_encode_pos]
  simp [List.mem_filter, List.mem_append]

/-- Two successive `result` applications whose net effect leaves every mapped
literal's truth value unchanged return the original encoded state. -/
theorem result_result_eq_self (pr : AirCargoProblem) (s : List Bool) (a b : Action)
    (hnd : pr.state_map.Nodup) (hlen : s.length = pr.state_map.length)
    (hpt : ∀ l ∈ pr.state_map,
        (l ∈ (decode_state (pr.result s a) pr.state_map).pos.filter
            (fun x => decide (x ∉ b.effect_rem)) ++ b.effect_add) ↔
          l ∈ (decode_state s pr.state_map).pos) :
    pr.result (pr.result s a) b = s := by
  calc pr.result (pr.result s a) b
      = pr.state_map.map (fun l => decide
          (l ∈ (decode_state (pr.result s a) pr.state_map).pos.filter
              (fun x => decide (x ∉ b.effect_rem)) ++ b.effect_add)) := rfl
    _ = pr.state_map.map (fun l => decide (l ∈ (decode_state s pr.state_map).pos)) :=
        List.map_congr_left (fun l hl => decide_eq_decide.2 (hpt l hl))
    _ = s := encode_decode s pr.state_map hnd hlen

/-- C10 counterexample: in a state of `air_cargo_p1` where P1 is recorded at
both SFO and JFK, Fly(P1, SFO, JFK) is applicable, yet flying back with
Fly(P1, JFK, SFO) does not restore the state — the original At(P1, JFK) flag is
lost. -/
theorem fly_inverse_fails_with_duplicate_at :
    fly_action "P1" "SFO" "JFK" ∈ air_cargo_p1.actions
        [true, true, true, true, false, false, false, false, false, false, true, false] ∧
    air_cargo_p1.result (air_cargo_p1.result
        [true, true, true, true, false, false, false, false, false, false, true, false]
        (fly_action "P1" "SFO" "JFK")) (fly_action "P1" "JFK" "SFO") ≠
      [true, true, true, true, false, false, false, false, false, false, true, false] := by
  refine ⟨by decide, by decide⟩

/-- C10 amended: over a duplicate-free state map and an encoded state of
matching length, applying an applicable Load(c,p,a) and then Unload(c,p,a)
restores the state; applying an applicable Fly(p,fr,to) and then Fly(p,to,fr)
restores the state provided At(p,to) is among the decoded false-literals
(without that proviso the Fly round trip can fail, as the counterexample
shows). -/
theorem load_unload_fly_inverses (pr : AirCargoProblem) (s : List Bool)
    (hnd : pr.state_map.Nodup) (hlen : s.length = pr.state_map.length) :
    (∀ c p ap, load_action c p ap ∈ pr.actions s →
        pr.result (pr.result s (load_action c p ap)) (unload_action c p ap) = s) ∧
    (∀ p fr dst, fly_action p fr dst ∈ pr.actions s →
        Literal.At p dst ∈ (decode_state s pr.state_map).neg →
        pr.result (pr.result s (fly_action p fr dst)) (fly_action p dst fr) = s) := by
  constructor
  · intro c p ap ha
    rw [actions_mem_iff] at ha
    obtain ⟨-, hanegs, haposs⟩ := ha
    have hAtc : Literal.At c ap ∈ (decode_state s pr.state_map).pos :=
      List.mem_toFinset.1 (haposs (List.mem_toFinset.2 (by simp [load_action])))
    have hIn_neg : Literal.In c p ∈ (decode_state s pr.state_map).neg :=
      List.mem_toFinset.1 (hanegs (List.mem_toFinset.2 (by simp [load_action])))
    have hIn_notpos : Literal.In c p ∉ (decode_state s pr.state_map).pos :=
      ((decode_neg_iff s pr.state_map hnd hlen _).1 hIn_neg).2
    refine result_result_eq_self pr s _ _ hnd hlen (fun l hl => ?_)
    rw [List.mem_append, List.mem_filter, mem_decode_result_pos]
    simp only [load_action, unload_action, List.mem_singleton, decide_eq_true_iff]
    by_cases h1 : l = Literal.At c ap
    · subst h1
      simp [hAtc]
    · by_cases h2 : l = Literal.In c p
      · subst h2
        simp [hIn_notpos]
      · simp [h1, h2, hl]
  · intro p fr dst ha hdst
    rw [actions_mem_iff] at ha
    obtain ⟨-, -, haposs⟩ := ha
    have hAtfr : Literal.At p fr ∈ (decode_state s pr.state_map).pos :=
      List.mem_toFinset.1 (haposs (List.mem_toFinset.2 (by simp [fly_action])))
    have hdst_notpos : Literal.At p dst ∉ (decode_state s pr.state_map).pos :=
      ((decode_neg_iff s pr.state_map hnd hlen _).1 hdst).2
    refine result_result_eq_self pr s _ _ hnd hlen (fun l hl => ?_)
    rw [List.mem_append, List.mem_filter, mem_decode_result_pos]
    simp only [fly_action, List.mem_singleton, decide_eq_true_iff]
    by_cases h1 : l = Literal.At p fr
    · subst h1
      simp [hAtfr]
    · by_cases h2 : l = Literal.At p dst
      · subst h2
        simp [hdst_notpos, h1]
      · simp [h1, h2, hl]

/-- C10 witness: in `air_cargo_p1`, Load(C1,P1,SFO) followed by
Unload(C1,P1,SFO) restores the initial state, and Fly(P1,SFO,JFK) followed by
Fly(P1,JFK,SFO) restores the initial state. -/
theorem load_unload_fly_inverses_witness :
    air_cargo_p1.result (air_cargo_p1.result air_cargo_p1.initial_state_TF
        (load_action "C1" "P1" "SFO")) (unload_action "C1" "P1" "SFO") =
      air_cargo_p1.initial_state_TF ∧
    air_cargo_p1.result (air_cargo_p1.result air_cargo_p1.initial_state_TF
        (fly_action "P1" "SFO" "JFK")) (fly_action "P1" "JFK" "SFO") =
      air_cargo_p1.initial_state_TF :=
  ⟨(load_unload_fly_inverses air_cargo_p1 air_cargo_p1.initial_state_TF (by decide)
      (by decide)).1 "C1" "P1" "SFO" (by decide),
   (load_unload_fly_inverses air_cargo_p1 air_cargo_p1.initial_state_TF (by decide)
      (by decide)).2 "P1" "SFO" "JFK" (by decide) (by decide)⟩

end AirCargo
